import Mathlib

/-!
Shallow embedding of `src/simple_key_store.py` (class `SimpleKeyStore`).

Modelling conventions:

* The SQLite table `keystore` is a `List KeyRow` together with the
  auto-increment rowid counter `nextId`; SQL `NULL` is `Option.none`.
  (SQLite can reuse the largest rowid after a delete of the last row; the
  monotone counter matches it on the append-only traces used here and
  nothing below depends on the difference.)
* The Fernet cipher is idealized: a token records the master key it was
  produced under, the random nonce drawn for that `encrypt` call, and the
  payload.  Two tokens are equal exactly when all three components agree,
  and `decrypt` succeeds exactly when the token's master key is the
  store's (a token made under another key, tampered or malformed, raises
  `InvalidToken`).  The nonce of each `encrypt` call is an explicit
  argument here (Python draws it at random inside `Fernet.encrypt`).
* `datetime` values are epoch seconds as `Int`; `datetime.today()` is the
  explicit parameter `now`, and `datetime.fromtimestamp` is the identity
  on epoch seconds.
* Python exceptions surface as `Except.error` with a short tag:
  `"DecryptionError"` for `cryptography.fernet.InvalidToken`,
  `"AmbiguityError"` for the `ValueError` of `get_key_by_name`,
  `"UniquenessError"` for `sqlite3.IntegrityError` on the
  `encrypted_key TEXT UNIQUE` constraint, `"RuntimeError"` for the
  failed-update `RuntimeError` of `update_key`.
-/

set_option linter.unusedVariables false

namespace SKS

/-- Idealized Fernet token (see the header): the key it was encrypted
under, the per-call random nonce, and the plaintext payload. -/
structure Ciphertext where
  nonce : Nat
  masterKey : Nat
  payload : String
deriving DecidableEq, Repr

/-- Model of `encrypt_key`: `if not unencrypted_key: return None`, else
`self.cipher.encrypt(unencrypted_key.encode())` with a fresh random nonce
(the explicit `nonce` argument). -/
def encrypt_key (masterKey nonce : Nat) (unencrypted_key : String) : Option Ciphertext :=
  if unencrypted_key = "" then none
  else some ⟨nonce, masterKey, unencrypted_key⟩

/-- Model of `decrypt_key`: `if not encrypted_key: return None`, else
`self.cipher.decrypt(encrypted_key).decode()`, which raises
`InvalidToken` when the token was not produced under this master key. -/
def decrypt_key (masterKey : Nat) (encrypted_key : Option Ciphertext) :
    Except String (Option String) :=
  match encrypted_key with
  | none => .ok none
  | some c => if c.masterKey = masterKey then .ok (some c.payload) else .error "DecryptionError"

/-- Model of one row of the `keystore` table created by
`create_keystore_table_if_dne`: `id INTEGER PRIMARY KEY, name TEXT NOT
NULL, expiration_in_sse INTEGER, active INTEGER DEFAULT 1, batch TEXT,
source TEXT, login TEXT, encrypted_key TEXT UNIQUE`.  `active` is only
ever written as `1 if active else 0` by `add_key` and as a Python bool by
`update_key` (adapted to 0/1), so it is a `Bool` here; reading it back
through Python truthiness is then the identity. -/
structure KeyRow where
  id : Nat
  name : String
  expiration_in_sse : Option Int
  active : Bool
  batch : Option String
  source : Option String
  login : Option String
  encrypted_key : Option Ciphertext
deriving DecidableEq, Repr

/-- Model of the state of one `SimpleKeyStore` instance: the table rows,
the next auto-increment rowid, and the cipher's master key
(`self.cipher = Fernet(self.keystore_key)`). -/
structure Keystore where
  rows : List KeyRow
  nextId : Nat
  masterKey : Nat
deriving DecidableEq, Repr

/-- Model of `keystore_columns()`. -/
def keystore_columns : List String :=
  ["id", "name", "expiration_in_sse", "active", "batch", "source", "login", "encrypted_key"]

/-- Model of the dict returned by `_get_dict_from_record_tuple` with
`include_unencrypted_key=True` (the only way the store's read paths call
it): the eight columns plus the derived entries `expiration_date`,
`expired`, `usable` and the decrypted `key`. -/
structure KeyRecord where
  id : Nat
  name : String
  expiration_in_sse : Option Int
  active : Bool
  batch : Option String
  source : Option String
  login : Option String
  encrypted_key : Option Ciphertext
  expiration_date : Option Int
  expired : Bool
  usable : Bool
  key : Option String
deriving DecidableEq, Repr

/-- Model of the `expiration_date` derivation: starts as `None` and is
set to `datetime.fromtimestamp(int(...))` only when
`record_data.get("expiration_in_sse")` is truthy, i.e. non-`NULL` and
nonzero. -/
def expirationDateOf (expiration_in_sse : Option Int) : Option Int :=
  match expiration_in_sse with
  | none => none
  | some v => if v = 0 then none else some v

/-- Model of the `expired` derivation:
`False if expiration_date is None else (expiration_date < today)`. -/
def expiredOf (expiration_date : Option Int) (now : Int) : Bool :=
  match expiration_date with
  | none => false
  | some d => decide (d < now)

/-- Model of `_get_dict_from_record_tuple(record)`: copies the columns
(`active` through truthiness, the identity on our `Bool`), derives
`expiration_date`, `expired` and `usable`, and decrypts the key, which
may raise. -/
def get_dict_from_record_tuple (masterKey : Nat) (now : Int) (r : KeyRow) :
    Except String KeyRecord :=
  match decrypt_key masterKey r.encrypted_key with
  | .error e => .error e
  | .ok key =>
    .ok { id := r.id, name := r.name, expiration_in_sse := r.expiration_in_sse,
          active := r.active, batch := r.batch, source := r.source, login := r.login,
          encrypted_key := r.encrypted_key,
          expiration_date := expirationDateOf r.expiration_in_sse,
          expired := expiredOf (expirationDateOf r.expiration_in_sse) now,
          usable := r.active && !(expiredOf (expirationDateOf r.expiration_in_sse) now),
          key := key }

/-- Model of `_record_dicts_from_select_star_results`: the loop appending
`_get_dict_from_record_tuple(r)` for each fetched row, propagating the
first exception raised. -/
def record_dicts_from_select_star_results (masterKey : Nat) (now : Int) :
    List KeyRow → Except String (List KeyRecord)
  | [] => .ok []
  | r :: rest =>
    match get_dict_from_record_tuple masterKey now r with
    | .error e => .error e
    | .ok rec =>
      match record_dicts_from_select_star_results masterKey now rest with
      | .error e => .error e
      | .ok recs => .ok (rec :: recs)

/-- A value bound into the parameterized query (`?` placeholders):
sqlite3 receives either a string or an integer for the fields at hand. -/
inductive SqlValue
  | s (v : String)
  | i (v : Int)
deriving DecidableEq, Repr

/-- Model of the kwargs that `get_matching_key_records` /
`delete_matching_key_records` pass to `run_query_with_where_clause`:
exactly the six optional filters, `None` meaning absent. -/
structure Filters where
  name : Option String := none
  active : Option Bool := none
  expiration_in_sse : Option Int := none
  batch : Option String := none
  source : Option String := none
  login : Option String := none
deriving DecidableEq, Repr

/-- Filters with every field absent (all kwargs `None`). -/
def emptyFilters : Filters := {}

/-- The value present in those kwargs for a given column name.  `id` and
`encrypted_key` are never passed by the callers, so they yield `none`;
`active` is handled separately by the builder (the loop `continue`s on
it). -/
def Filters.value (f : Filters) : String → Option SqlValue
  | "name" => f.name.map .s
  | "expiration_in_sse" => f.expiration_in_sse.map .i
  | "batch" => f.batch.map .s
  | "source" => f.source.map .s
  | "login" => f.login.map .s
  | _ => none

/-- Model of the `conditions` and `values` lists built by
`run_query_with_where_clause`: one pass over `keystore_columns()` that
skips `active` and appends `field + " = ?"` with the bound value for each
present kwarg, then the literal `active = 1` / `active = 0` condition
appended after the loop when `active` is present. -/
def buildConditions (f : Filters) : List String × List SqlValue :=
  let acc := keystore_columns.foldl
    (fun acc field =>
      if field = "active" then acc
      else
        match f.value field with
        | some v => (acc.1 ++ [field ++ " = ?"], acc.2 ++ [v])
        | none => acc)
    ([], [])
  match f.active with
  | some b => (acc.1 ++ [if b then "active = 1" else "active = 0"], acc.2)
  | none => acc

/-- Model of the clause appended to the query:
`" WHERE " + " AND ".join(conditions)` when any condition was generated,
else nothing (the query runs as-is and matches everything). -/
def whereClause (conditions : List String) : String :=
  if conditions = [] then "" else " WHERE " ++ String.intercalate " AND " conditions

/-- SQLite evaluation of the WHERE clause built by `buildConditions` on
one row: `col = ?` is SQL equality against the bound value (a `NULL`
column never equals anything), and the `active = 1` / `active = 0`
literal compares the stored flag.  Conditions are joined with `AND`. -/
def rowMatchesFilters (f : Filters) (r : KeyRow) : Bool :=
  (match f.name with | none => true | some v => decide (r.name = v)) &&
  (match f.expiration_in_sse with | none => true | some v => decide (r.expiration_in_sse = some v)) &&
  (match f.batch with | none => true | some v => decide (r.batch = some v)) &&
  (match f.source with | none => true | some v => decide (r.source = some v)) &&
  (match f.login with | none => true | some v => decide (r.login = some v)) &&
  (match f.active with | none => true | some b => decide (r.active = b))

/-- Lexicographic comparison of char lists by code point, Python's string
ordering. -/
def charsCmp : List Char → List Char → Ordering
  | [], [] => .eq
  | [], _ :: _ => .lt
  | _ :: _, [] => .gt
  | a :: as, b :: bs =>
    match compare a.toNat b.toNat with
    | .eq => charsCmp as bs
    | o => o

/-- Python string comparison. -/
def strCmp (a b : String) : Ordering := charsCmp a.data b.data

/-- Python bool comparison (`False < True`). -/
def boolCmp : Bool → Bool → Ordering
  | false, false => .eq
  | false, true => .lt
  | true, false => .gt
  | true, true => .eq

/-- Python int comparison. -/
def intCmp (a b : Int) : Ordering :=
  if a < b then .lt else if a = b then .eq else .gt

/-- Comparison of two optional strings as sort-key components.  Python
compares `None` with `None` as equal (tuple comparison moves on); its
comparison of `None` with a string raises `TypeError` inside `sort`, a
crash we totalize as `none < some`. -/
def optStrCmp : Option String → Option String → Ordering
  | none, none => .eq
  | none, some _ => .lt
  | some _, none => .gt
  | some a, some b => strCmp a b

/-- Comparison of two optional ints as sort-key components; same
convention as `optStrCmp`. -/
def optIntCmp : Option Int → Option Int → Ordering
  | none, none => .eq
  | none, some _ => .lt
  | some _, none => .gt
  | some a, some b => intCmp a b

/-- The record fields usable in `sort_order` that the claims exercise
(the default usability sort order). -/
inductive SortField
  | name | source | login | batch | active | expiration_date
deriving DecidableEq, Repr

/-- Compare one sort-key component `x.get(field)` of two records. -/
def fieldCmp : SortField → KeyRecord → KeyRecord → Ordering
  | .name, a, b => strCmp a.name b.name
  | .source, a, b => optStrCmp a.source b.source
  | .login, a, b => optStrCmp a.login b.login
  | .batch, a, b => optStrCmp a.batch b.batch
  | .active, a, b => boolCmp a.active b.active
  | .expiration_date, a, b => optIntCmp a.expiration_date b.expiration_date

/-- Python tuple comparison of the sort keys
`tuple(x.get(field) for field in sort_order)`: first differing component
decides. -/
def recordsCmp (sort_order : List SortField) (a b : KeyRecord) : Ordering :=
  match sort_order with
  | [] => .eq
  | fld :: rest =>
    match fieldCmp fld a b with
    | .eq => recordsCmp rest a b
    | o => o

/-- Non-strict key order used for the stable ascending sort. -/
def recordsLe (sort_order : List SortField) (a b : KeyRecord) : Bool :=
  decide (recordsCmp sort_order a b ≠ Ordering.gt)

/-- Insert `x` after every already-placed element `y` with `le y x`;
with `items.foldl`, this yields exactly a stable ascending sort. -/
def insertSorted (le : α → α → Bool) (x : α) : List α → List α
  | [] => [x]
  | y :: ys => if le y x then y :: insertSorted le x ys else x :: y :: ys

/-- Model of Python's `list.sort(key=...)`: stable, ascending. -/
def stableSort (le : α → α → Bool) (l : List α) : List α :=
  l.foldl (fun acc x => insertSorted le x acc) []

/-- Model of `get_matching_key_records`: run `SELECT *` with the built
WHERE clause, turn the fetched rows into record dicts (which may raise on
a bad decrypt), then `matching_records.sort(...)` if a truthy
`sort_order` was given (`None` and the empty list are falsy). -/
def get_matching_key_records (st : Keystore) (now : Int) (f : Filters)
    (sort_order : Option (List SortField)) : Except String (List KeyRecord) :=
  match record_dicts_from_select_star_results st.masterKey now
      (st.rows.filter (rowMatchesFilters f)) with
  | .error e => .error e
  | .ok matching_records =>
    .ok (match sort_order with
         | some (fld :: rest) => stableSort (recordsLe (fld :: rest)) matching_records
         | _ => matching_records)

/-- Model of `get_key_record(unencrypted_key)`: `SELECT *` over the whole
table, build all record dicts (decrypting every row), return the first
whose `key` equals the argument, else `None`. -/
def get_key_record (st : Keystore) (now : Int) (unencrypted_key : String) :
    Except String (Option KeyRecord) :=
  match record_dicts_from_select_star_results st.masterKey now st.rows with
  | .error e => .error e
  | .ok records => .ok (records.find? (fun rec => decide (rec.key = some unencrypted_key)))

/-- Model of `get_key_by_name(name)`: fetch records matching the name,
raise `ValueError` unless exactly one matched, else return its `key`
entry. -/
def get_key_by_name (st : Keystore) (now : Int) (name : String) :
    Except String (Option String) :=
  match get_matching_key_records st now { name := some name } none with
  | .error e => .error e
  | .ok [r] => .ok r.key
  | .ok _ => .error "AmbiguityError"

/-- Model of `add_key`: encrypt the key (a fresh `nonce` models the
random nonce of this call), insert one row with the given fields
(`expiration_in_sse` defaults to `0`, `active` stored as 0/1), and return
`cursor.lastrowid`.  The insert raises `sqlite3.IntegrityError` when the
new ciphertext equals a stored non-`NULL` `encrypted_key` (the `UNIQUE`
constraint; SQLite exempts `NULL`s). -/
def add_key (st : Keystore) (nonce : Nat) (name unencrypted_key : String)
    (active : Bool := true) (expiration_in_sse : Int := 0)
    (batch : Option String := none) (source : Option String := none)
    (login : Option String := none) : Except String (Keystore × Nat) :=
  let encrypted_key := encrypt_key st.masterKey nonce unencrypted_key
  if encrypted_key.isSome && st.rows.any (fun r => decide (r.encrypted_key = encrypted_key)) then
    .error "UniquenessError"
  else
    .ok ({ st with
           rows := st.rows ++ [{ id := st.nextId, name := name,
                                 expiration_in_sse := some expiration_in_sse,
                                 active := active, batch := batch, source := source,
                                 login := login, encrypted_key := encrypted_key }],
           nextId := st.nextId + 1 },
         st.nextId)

/-- Model of `delete_key_record(unencrypted_key)`: encrypt the argument
afresh (new random nonce!) and run
`DELETE ... WHERE encrypted_key=?` with that brand-new ciphertext,
returning `cursor.rowcount`.  An empty argument encrypts to `None`, and
`encrypted_key = NULL` matches no row in SQL. -/
def delete_key_record (st : Keystore) (nonce : Nat) (unencrypted_key : String) :
    Keystore × Nat :=
  match encrypt_key st.masterKey nonce unencrypted_key with
  | none => (st, 0)
  | some c =>
    let remaining := st.rows.filter (fun r => decide (r.encrypted_key ≠ some c))
    ({ st with rows := remaining }, st.rows.length - remaining.length)

/-- Model of `update_key`: build the SET clause from the non-`None`
arguments; with nothing to set, return without touching storage; else run
`UPDATE ... WHERE id = :id` and raise `RuntimeError` unless
`cursor.rowcount == 1`.  (The Python `type(id_to_update)` check is
vacuous for a `Nat` id.  On the raising path the model discards the
uncommitted update.) -/
def update_key (st : Keystore) (id_to_update : Nat)
    (name : Option String := none) (active : Option Bool := none)
    (expiration_in_sse : Option Int := none) (batch : Option String := none)
    (source : Option String := none) (login : Option String := none) :
    Except String Keystore :=
  if name.isNone && active.isNone && expiration_in_sse.isNone &&
      batch.isNone && source.isNone && login.isNone then
    .ok st
  else
    let updated := st.rows.map (fun r =>
      if r.id = id_to_update then
        { r with
          name := name.getD r.name,
          active := active.getD r.active,
          expiration_in_sse := match expiration_in_sse with
            | some v => some v
            | none => r.expiration_in_sse,
          batch := match batch with | some v => some v | none => r.batch,
          source := match source with | some v => some v | none => r.source,
          login := match login with | some v => some v | none => r.login }
      else r)
    if st.rows.countP (fun r => decide (r.id = id_to_update)) ≠ 1 then
      .error "RuntimeError"
    else
      .ok { st with rows := updated }

/-- The default `sort_order` of `records_for_usability_report`. -/
def default_usability_sort_order : List SortField :=
  [.name, .source, .login, .batch, .active, .expiration_date]

/-- Model of `records_for_usability_report(key_name)` (with
`print_records=False`): matching records under the name filter, sorted
by the default usability sort order. -/
def records_for_usability_report (st : Keystore) (now : Int)
    (key_name : Option String) : Except String (List KeyRecord) :=
  get_matching_key_records st now { name := key_name } (some default_usability_sort_order)

/-- Python's `str()` of the optional qualifying fields: `None` renders as
the string `"None"`, a string as itself (`name` is always a string). -/
def pyStr : Option String → String
  | none => "None"
  | some s => s

/-- Model of `qualified_name = delim.join(str(record[field]) for field in
qual_fields)` with `qual_fields = [name, source, login, batch]` and
`delim = "+|+"`. -/
def qualifiedName (rec : KeyRecord) : String :=
  rec.name ++ "+|+" ++ pyStr rec.source ++ "+|+" ++ pyStr rec.login ++ "+|+" ++ pyStr rec.batch

/-- Membership test of a Python dict with string keys, modelled as an
association list in insertion order. -/
def dictContains (m : List (String × Nat)) (k : String) : Bool :=
  m.any (fun p => decide (p.1 = k))

/-- Model of `if qualified_name not in d: d[qualified_name] = 0`. -/
def dictSetDefault0 (m : List (String × Nat)) (k : String) : List (String × Nat) :=
  if dictContains m k then m else m ++ [(k, 0)]

/-- Model of `d[qualified_name] += 1` (the key is present). -/
def dictIncr (m : List (String × Nat)) (k : String) : List (String × Nat) :=
  m.map (fun p => if p.1 = k then (p.1, p.2 + 1) else p)

/-- Model of `d[qualified_name]` lookup (the key is present in every use
below; an absent key would be a Python `KeyError`, totalized as 0). -/
def dictGet (m : List (String × Nat)) (k : String) : Nat :=
  match m.find? (fun p => decide (p.1 = k)) with
  | some p => p.2
  | none => 0

/-- One iteration of the counting loop of `usability_counts_report`:
initialize both dicts at this record's qualified name if absent, then
increment the usable or the unusable count. -/
def countsStep (ms : List (String × Nat) × List (String × Nat)) (record : KeyRecord) :
    List (String × Nat) × List (String × Nat) :=
  let qn := qualifiedName record
  let us := dictSetDefault0 ms.1 qn
  let un := dictSetDefault0 ms.2 qn
  if record.usable then (dictIncr us qn, un) else (us, dictIncr un qn)

/-- Model of `qualified_name.split(delim)` for the fixed source delimiter
`"+|+"`: Python's leftmost, non-overlapping split, on the underlying
char list. -/
def splitQualChars : List Char → List Char → List (List Char)
  | '+' :: '|' :: '+' :: rest, cur => cur.reverse :: splitQualChars rest []
  | c :: rest, cur => splitQualChars rest (c :: cur)
  | [], cur => [cur.reverse]

/-- String-level split on the fixed delimiter `"+|+"`. -/
def pySplitQual (s : String) : List String :=
  (splitQualChars s.data []).map (fun l => ⟨l⟩)

/-- Model of one entry of `records_for_count_display`. -/
structure CountRecord where
  name : String
  source : String
  login : String
  batch : String
  usable : Nat
  unusable : Nat
deriving DecidableEq, Repr

/-- The `records_for_count_display` construction of
`usability_counts_report`: one display record per key of the
usable-counts dict (Python dicts iterate in insertion order),
re-deriving the four fields by splitting the qualified name
(`field_values[i]` for the first four pieces, totalized with `""` for an
impossible short split), with the counts read from the two dicts. -/
def countsDisplay (final : List (String × Nat) × List (String × Nat)) : List CountRecord :=
  final.1.map (fun p =>
    { name := (pySplitQual p.1).getD 0 "", source := (pySplitQual p.1).getD 1 "",
      login := (pySplitQual p.1).getD 2 "", batch := (pySplitQual p.1).getD 3 "",
      usable := p.2, unusable := dictGet final.2 p.1 })

/-- The body of `usability_counts_report` as a function of the already
fetched `usability_records`: run the counting loop over the records,
then build the display records. -/
def usability_counts_of (usability_records : List KeyRecord) : List CountRecord :=
  countsDisplay (usability_records.foldl countsStep ([], []))

/-- Model of `usability_counts_report(key_name)` (printing disabled):
fetch the sorted usability records, then count per qualified name. -/
def usability_counts_report (st : Keystore) (now : Int) (key_name : Option String) :
    Except String (List CountRecord) :=
  match records_for_usability_report st now key_name with
  | .error e => .error e
  | .ok usability_records => .ok (usability_counts_of usability_records)

/-! Spec-side definitions, written from the claim texts, for comparison
with the source-side functions above. -/

/-- Rendering demanded by the claim for C3: conditions joined in the full
canonical column order with the `active` literal at its canonical
position (between `expiration_in_sse` and `batch`). -/
def claimCanonicalConditions (f : Filters) : List String :=
  keystore_columns.foldl
    (fun acc field =>
      if field = "active" then
        match f.active with
        | some b => acc ++ [if b then "active = 1" else "active = 0"]
        | none => acc
      else
        match f.value field with
        | some _ => acc ++ [field ++ " = ?"]
        | none => acc)
    []

/-- Amended rendering for C3: the bound-parameter conditions in canonical
column order, then the `active` literal appended last. -/
def amendedConditions (f : Filters) : List String :=
  (match f.name with | some _ => ["name = ?"] | none => []) ++
  (match f.expiration_in_sse with | some _ => ["expiration_in_sse = ?"] | none => []) ++
  (match f.batch with | some _ => ["batch = ?"] | none => []) ++
  (match f.source with | some _ => ["source = ?"] | none => []) ++
  (match f.login with | some _ => ["login = ?"] | none => []) ++
  (match f.active with | some b => [if b then "active = 1" else "active = 0"] | none => [])

/-- Bound values accompanying `amendedConditions` (the `active` literal
binds no value). -/
def amendedValues (f : Filters) : List SqlValue :=
  (match f.name with | some v => [SqlValue.s v] | none => []) ++
  (match f.expiration_in_sse with | some v => [SqlValue.i v] | none => []) ++
  (match f.batch with | some v => [SqlValue.s v] | none => []) ++
  (match f.source with | some v => [SqlValue.s v] | none => []) ++
  (match f.login with | some v => [SqlValue.s v] | none => [])

/-! Helper lemmas. -/

/-- The record-dict loop preserves the number of rows when it succeeds. -/
theorem record_dicts_ok_length (masterKey : Nat) (now : Int) :
    ∀ {l : List KeyRow} {recs : List KeyRecord},
      record_dicts_from_select_star_results masterKey now l = .ok recs →
      recs.length = l.length := by
  intro l
  induction l with
  | nil => intro recs h; cases h; rfl
  | cons r rest ih =>
    intro recs h
    simp only [record_dicts_from_select_star_results] at h
    cases hd : get_dict_from_record_tuple masterKey now r with
    | error e => rw [hd] at h; cases h
    | ok rec =>
      rw [hd] at h
      cases ht : record_dicts_from_select_star_results masterKey now rest with
      | error e => rw [ht] at h; cases h
      | ok recs' =>
        rw [ht] at h
        cases h
        simp [ih ht]

/-- Every record produced by a successful record-dict loop comes from a
row of the input list. -/
theorem record_dicts_mem (masterKey : Nat) (now : Int) :
    ∀ {l : List KeyRow} {recs : List KeyRecord} {rec : KeyRecord},
      record_dicts_from_select_star_results masterKey now l = .ok recs →
      rec ∈ recs → ∃ r ∈ l, get_dict_from_record_tuple masterKey now r = .ok rec := by
  intro l
  induction l with
  | nil => intro recs rec h hm; cases h; cases hm
  | cons r rest ih =>
    intro recs rec h hm
    simp only [record_dicts_from_select_star_results] at h
    cases hd : get_dict_from_record_tuple masterKey now r with
    | error e => rw [hd] at h; cases h
    | ok rec0 =>
      rw [hd] at h
      cases ht : record_dicts_from_select_star_results masterKey now rest with
      | error e => rw [ht] at h; cases h
      | ok recs' =>
        rw [ht] at h
        cases h
        rcases List.mem_cons.mp hm with h0 | h1
        · exact ⟨r, List.mem_cons_self r rest, by rw [h0]; exact hd⟩
        · obtain ⟨r', hr', hr'ok⟩ := ih ht h1
          exact ⟨r', List.mem_cons_of_mem r hr', hr'ok⟩

/-- The only error `decrypt_key` raises is the decrypt failure. -/
theorem decrypt_key_error_name (masterKey : Nat) (ek : Option Ciphertext) (e : String)
    (h : decrypt_key masterKey ek = .error e) : e = "DecryptionError" := by
  cases ek with
  | none => simp [decrypt_key] at h
  | some c =>
    simp only [decrypt_key] at h
    by_cases hc : c.masterKey = masterKey
    · rw [if_pos hc] at h; cases h
    · rw [if_neg hc] at h; cases h; rfl

/-- The only error `_get_dict_from_record_tuple` raises is the decrypt
failure. -/
theorem get_dict_error_name (masterKey : Nat) (now : Int) (r : KeyRow) (e : String)
    (h : get_dict_from_record_tuple masterKey now r = .error e) : e = "DecryptionError" := by
  simp only [get_dict_from_record_tuple] at h
  cases hd : decrypt_key masterKey r.encrypted_key with
  | error e' =>
    rw [hd] at h
    cases h
    exact decrypt_key_error_name masterKey r.encrypted_key _ hd
  | ok key => rw [hd] at h; cases h

/-- Inverting a successful `_get_dict_from_record_tuple`: how each entry
of the returned dict relates to the row. -/
theorem get_dict_fields (masterKey : Nat) (now : Int) (r : KeyRow) (rec : KeyRecord)
    (h : get_dict_from_record_tuple masterKey now r = .ok rec) :
    rec.id = r.id ∧ rec.name = r.name ∧ rec.expiration_in_sse = r.expiration_in_sse ∧
    rec.active = r.active ∧ rec.batch = r.batch ∧ rec.source = r.source ∧
    rec.login = r.login ∧ rec.encrypted_key = r.encrypted_key ∧
    rec.expiration_date = expirationDateOf r.expiration_in_sse ∧
    rec.expired = expiredOf rec.expiration_date now ∧
    rec.usable = (rec.active && !rec.expired) ∧
    decrypt_key masterKey r.encrypted_key = .ok rec.key := by
  simp only [get_dict_from_record_tuple] at h
  cases hd : decrypt_key masterKey r.encrypted_key with
  | error e => rw [hd] at h; cases h
  | ok key =>
    rw [hd] at h
    cases h
    refine ⟨rfl, rfl, rfl, rfl, rfl, rfl, rfl, rfl, rfl, rfl, rfl, rfl⟩

/-- A row whose token was made under a different master key fails the
record-dict loop of any scan that reaches it, with the decrypt error. -/
theorem record_dicts_error_of_bad (masterKey : Nat) (now : Int) (bad : KeyRow)
    (hbad : ∀ rec, get_dict_from_record_tuple masterKey now bad ≠ .ok rec) :
    ∀ {l : List KeyRow}, bad ∈ l →
      record_dicts_from_select_star_results masterKey now l = .error "DecryptionError" := by
  intro l
  induction l with
  | nil => intro hm; cases hm
  | cons r rest ih =>
    intro hm
    simp only [record_dicts_from_select_star_results]
    cases hd : get_dict_from_record_tuple masterKey now r with
    | error e => rw [get_dict_error_name masterKey now r e hd]
    | ok rec =>
      have hr : bad ∈ rest := by
        rcases List.mem_cons.mp hm with h0 | h1
        · exact absurd hd (by rw [← h0] at hd ⊢; exact hbad rec)
        · exact h1
      rw [ih hr]

/-- Membership in an insertion step of the stable sort. -/
theorem mem_insertSorted (le : α → α → Bool) (x y : α) :
    ∀ (l : List α), y ∈ insertSorted le x l ↔ y = x ∨ y ∈ l := by
  intro l
  induction l with
  | nil => simp [insertSorted]
  | cons z zs ih =>
    simp only [insertSorted]
    by_cases h : le z x = true
    · rw [if_pos h]
      simp only [List.mem_cons, ih]
      tauto
    · rw [if_neg h]
      simp [List.mem_cons]

/-- The stable sort is a permutation as far as membership is concerned. -/
theorem mem_stableSort (le : α → α → Bool) (l : List α) (x : α) :
    x ∈ stableSort le l ↔ x ∈ l := by
  suffices hgen : ∀ (l acc : List α),
      (x ∈ l.foldl (fun acc y => insertSorted le y acc) acc ↔ x ∈ acc ∨ x ∈ l) by
    have := hgen l []
    simpa [stableSort] using this
  intro l
  induction l with
  | nil => intro acc; simp
  | cons z zs ih =>
    intro acc
    simp only [List.foldl_cons]
    rw [ih (insertSorted le z acc), mem_insertSorted]
    simp only [List.mem_cons]
    tauto

/-- Inverting a successful `get_matching_key_records`: the result is the
(possibly sorted) record-dict list of the rows matching the filters. -/
theorem get_matching_inv (st : Keystore) (now : Int) (f : Filters)
    (so : Option (List SortField)) (recs : List KeyRecord)
    (h : get_matching_key_records st now f so = .ok recs) :
    ∃ recs0, record_dicts_from_select_star_results st.masterKey now
        (st.rows.filter (rowMatchesFilters f)) = .ok recs0 ∧
      recs.length = recs0.length ∧ (∀ rec, rec ∈ recs ↔ rec ∈ recs0) := by
  simp only [get_matching_key_records] at h
  cases hd : record_dicts_from_select_star_results st.masterKey now
      (st.rows.filter (rowMatchesFilters f)) with
  | error e => rw [hd] at h; cases h
  | ok recs0 =>
    rw [hd] at h
    cases h
    refine ⟨recs0, rfl, ?_, ?_⟩
    · cases so with
      | none => rfl
      | some fields =>
        cases fields with
        | nil => rfl
        | cons fld rest =>
          simp only []
          have hperm : ∀ (l : List KeyRecord) (acc : List KeyRecord),
              (l.foldl (fun acc y => insertSorted (recordsLe (fld :: rest)) y acc) acc).length
                = acc.length + l.length := by
            intro l
            induction l with
            | nil => intro acc; simp
            | cons z zs ih =>
              intro acc
              simp only [List.foldl_cons]
              rw [ih (insertSorted (recordsLe (fld :: rest)) z acc)]
              have hins : ∀ (m : List KeyRecord) (x : KeyRecord),
                  (insertSorted (recordsLe (fld :: rest)) x m).length = m.length + 1 := by
                intro m
                induction m with
                | nil => intro x; rfl
                | cons w ws ihm =>
                  intro x
                  simp only [insertSorted]
                  by_cases hle : recordsLe (fld :: rest) w x = true
                  · rw [if_pos hle]; simp [ihm]
                  · rw [if_neg hle]; simp
              rw [hins]
              simp only [List.length_cons]
              omega
          simpa [stableSort] using hperm recs0 []
    · intro rec
      cases so with
      | none => rfl
      | some fields =>
        cases fields with
        | nil => rfl
        | cons fld rest => exact mem_stableSort _ recs0 rec

/-! C1. The spec says `delete_key_record(plaintext)` must resolve the
ciphertext currently stored for that plaintext (scan and decrypt) and
delete by that exact stored ciphertext, returning 1 when the record
exists.  The code instead re-encrypts the plaintext with a fresh random
nonce and deletes by the brand-new ciphertext, which equals no stored
token, so nothing is ever deleted. -/

/-- A store holding one record whose plaintext key is `"sekret"`,
encrypted with nonce 0 under master key 9. -/
def exSt1 : Keystore :=
  ⟨[⟨1, "svc", some 0, true, none, none, none, some ⟨0, 9, "sekret"⟩⟩], 2, 9⟩

/-- C1: code bug.  `get_key_record` (the scan-and-decrypt lookup) finds
the record whose decrypted key is `"sekret"`, yet `delete_key_record`,
encrypting `"sekret"` afresh (nonce 1 ≠ stored nonce 0), deletes nothing
and returns 0 instead of the claimed 1. -/
theorem delete_key_record_fresh_nonce_misses :
    get_key_record exSt1 0 "sekret" =
      .ok (some ⟨1, "svc", some 0, true, none, none, none, some ⟨0, 9, "sekret"⟩,
        none, false, true, some "sekret"⟩) ∧
    delete_key_record exSt1 1 "sekret" = (exSt1, 0) :=
  ⟨rfl, rfl⟩

/-! C2. The spec claims `add_key` fails with a validation error when
`name` or `unencrypted_key` is empty.  The code has no such check: an
empty name is inserted as an empty string (`TEXT NOT NULL` only forbids
`NULL`), an empty key makes `encrypt_key` return `None`, which is
inserted as a `NULL` `encrypted_key` (the `UNIQUE` constraint exempts
`NULL`).  Either way one row is inserted and the new id returned. -/

/-- C2 counterexample: `add_key` with an empty name succeeds and inserts
a row, instead of failing with a validation error. -/
theorem add_key_empty_name_succeeds :
    add_key (⟨[], 1, 0⟩ : Keystore) 0 "" "k" =
      .ok (⟨[⟨1, "", some 0, true, none, none, none, some ⟨0, 0, "k"⟩⟩], 2, 0⟩, 1) :=
  rfl

/-- C2 amended: `add_key` performs no emptiness validation.  For every
name and key, empty or not, provided no stored row holds the token the
fresh encryption produced — a condition only ever in play when the key
is non-empty, since an empty key encrypts to `NULL` and the `UNIQUE`
constraint exempts `NULL`s, so the hypothesis quantifies over an actual
token of this call — it inserts exactly one row holding the given fields
and returns the newly assigned id. -/
theorem add_key_no_validation (st : Keystore) (nonce : Nat) (name unencrypted_key : String)
    (active : Bool) (expiration_in_sse : Int) (batch source login : Option String)
    (h : ∀ r ∈ st.rows, ∀ c : Ciphertext,
      encrypt_key st.masterKey nonce unencrypted_key = some c → r.encrypted_key ≠ some c) :
    add_key st nonce name unencrypted_key active expiration_in_sse batch source login =
      .ok ({ rows := st.rows ++ [{ id := st.nextId, name := name,
                                   expiration_in_sse := some expiration_in_sse,
                                   active := active, batch := batch, source := source,
                                   login := login,
                                   encrypted_key := encrypt_key st.masterKey nonce
                                     unencrypted_key }],
             nextId := st.nextId + 1, masterKey := st.masterKey }, st.nextId) := by
  have hguard : ((encrypt_key st.masterKey nonce unencrypted_key).isSome &&
      st.rows.any
        (fun r => decide (r.encrypted_key = encrypt_key st.masterKey nonce unencrypted_key)))
      = false := by
    cases hek : encrypt_key st.masterKey nonce unencrypted_key with
    | none => rfl
    | some c =>
      have hany : (st.rows.any (fun r => decide (r.encrypted_key = some c))) = false := by
        rw [List.any_eq_false]
        intro r hr
        simpa using h r hr c hek
      simp [hany]
  simp [add_key, hguard]

/-- Witness for C2: adding an empty key succeeds even when the store
already holds a `NULL`-ciphertext row from a previous empty-key add (two
`NULL`s do not collide under the `UNIQUE` constraint). -/
theorem add_key_no_validation_witness :
    add_key (⟨[⟨1, "n", some 0, true, none, none, none, none⟩], 2, 0⟩ : Keystore)
        0 "n2" "" true 0 none none none =
      .ok (⟨[⟨1, "n", some 0, true, none, none, none, none⟩,
             ⟨2, "n2", some 0, true, none, none, none, none⟩], 3, 0⟩, 2) := by
  simpa [encrypt_key] using
    add_key_no_validation ⟨[⟨1, "n", some 0, true, none, none, none, none⟩], 2, 0⟩
      0 "n2" "" true 0 none none none
      (by intro r hr c hc; simp [encrypt_key] at hc)

/-! C3. The claim says conditions are joined in the fixed canonical
column order with `active` at its canonical place.  The builder loops
over the canonical columns for the bound-parameter conditions but
appends the `active` literal after the loop, so `active` always comes
last. -/

/-- C3 counterexample: with `batch` and `active` both present, the code
renders `batch = ? AND active = 1`, while the canonical column order
(`active` before `batch`) demands `active = 1 AND batch = ?`. -/
theorem where_clause_active_last_cex :
    buildConditions { batch := some "b", active := some true } =
      (["batch = ?", "active = 1"], [SqlValue.s "b"]) ∧
    claimCanonicalConditions { batch := some "b", active := some true } =
      ["active = 1", "batch = ?"] ∧
    (buildConditions { batch := some "b", active := some true }).1 ≠
      claimCanonicalConditions { batch := some "b", active := some true } :=
  ⟨rfl, rfl, by decide⟩

/-- C3 amended: null/absent filters are omitted, every present non-active
filter becomes a bound `?` in canonical column order, the `active` filter
is rendered as the literal `active = 1` / `active = 0` and appended last
(after all bound conditions), the conditions are joined with `AND`, and
an empty filter set yields the empty predicate. -/
theorem where_clause_rendering (f : Filters) :
    buildConditions f = (amendedConditions f, amendedValues f) ∧
    buildConditions emptyFilters = ([], []) ∧
    whereClause [] = "" ∧
    whereClause (buildConditions f).1 =
      (if (buildConditions f).1 = [] then ""
       else " WHERE " ++ String.intercalate " AND " (buildConditions f).1) := by
  refine ⟨?_, rfl, rfl, rfl⟩
  rcases f with ⟨n, a, e, b, s, l⟩
  cases n <;> cases a <;> cases e <;> cases b <;> cases s <;> cases l <;> rfl

/-! C6. Round trip of the cipher under one master key. -/

/-- C6: for every non-empty plaintext, decrypting the encryption under
the same master key returns the plaintext. -/
theorem decrypt_encrypt_roundtrip (masterKey nonce : Nat) (s : String) (h : s ≠ "") :
    decrypt_key masterKey (encrypt_key masterKey nonce s) = .ok (some s) := by
  simp [encrypt_key, decrypt_key, h]

/-- Witness for C6 at a concrete plaintext. -/
theorem decrypt_encrypt_roundtrip_witness :
    decrypt_key 7 (encrypt_key 7 3 "sekret123") = .ok (some "sekret123") :=
  decrypt_encrypt_roundtrip 7 3 "sekret123" (by decide)

/-! C10. `add_key` defaults `expiration_in_sse` to 0, and a stored 0 is
falsy in the `expiration_date` derivation, so such records never
expire. -/

/-- C10: a stored `expiration_in_sse` of exactly 0 — the `add_key`
default, as the appended row of any defaulted `add_key` call shows —
derives an absent `expiration_date` and `expired = false`, so the record
behaves exactly like one that never expires (`usable` reduces to
`active`). -/
theorem expiration_zero_never_expires (masterKey : Nat) (now : Int) (r : KeyRow)
    (rec : KeyRecord) (st st' : Keystore) (nonce newId : Nat) (nm uk : String)
    (hsse : r.expiration_in_sse = some 0)
    (hrec : get_dict_from_record_tuple masterKey now r = .ok rec)
    (hadd : add_key st nonce nm uk = .ok (st', newId)) :
    rec.expiration_date = none ∧ rec.expired = false ∧ rec.usable = rec.active ∧
    st'.rows.getLast?.map KeyRow.expiration_in_sse = some (some 0) := by
  obtain ⟨-, -, -, -, -, -, -, -, hdate, hexp, husable, -⟩ :=
    get_dict_fields masterKey now r rec hrec
  have hdate' : rec.expiration_date = none := by
    rw [hdate, hsse]; rfl
  have hexp' : rec.expired = false := by
    rw [hexp, hdate']; rfl
  refine ⟨hdate', hexp', by rw [husable, hexp']; simp, ?_⟩
  simp only [add_key] at hadd
  by_cases hcol : ((encrypt_key st.masterKey nonce uk).isSome &&
      st.rows.any (fun r => decide (r.encrypted_key = encrypt_key st.masterKey nonce uk))) = true
  · rw [if_pos hcol] at hadd; cases hadd
  · rw [if_neg hcol] at hadd
    cases hadd
    simp

/-- Witness for C10: a concrete defaulted `add_key` call and the record
derived from its row. -/
theorem expiration_zero_never_expires_witness :
    (⟨1, "n", some 0, true, none, none, none, none, none, false, true, none⟩ :
        KeyRecord).expiration_date = none ∧
    (⟨1, "n", some 0, true, none, none, none, none, none, false, true, none⟩ :
        KeyRecord).expired = false ∧
    (⟨1, "n", some 0, true, none, none, none, none, none, false, true, none⟩ :
        KeyRecord).usable =
      (⟨1, "n", some 0, true, none, none, none, none, none, false, true, none⟩ :
        KeyRecord).active ∧
    (⟨[⟨1, "n", some 0, true, none, none, none, some ⟨0, 0, "k"⟩⟩], 2, 0⟩ :
        Keystore).rows.getLast?.map KeyRow.expiration_in_sse = some (some 0) :=
  expiration_zero_never_expires 0 0 ⟨1, "n", some 0, true, none, none, none, none⟩
    ⟨1, "n", some 0, true, none, none, none, none, none, false, true, none⟩
    ⟨[], 1, 0⟩ ⟨[⟨1, "n", some 0, true, none, none, none, some ⟨0, 0, "k"⟩⟩], 2, 0⟩
    0 1 "n" "k" rfl rfl rfl

/-! C4. Derived `expired`/`usable` flags on records returned by read
operations (every read path builds its records through
`_get_dict_from_record_tuple`, reached here through
`get_matching_key_records`). -/

/-- C4: on every record returned by a read, `expired` holds exactly when
a derived expiration date exists and lies strictly before the current
time, and `usable` holds exactly when the record is active and not
expired. -/
theorem read_record_expired_usable (st : Keystore) (now : Int) (f : Filters)
    (so : Option (List SortField)) (recs : List KeyRecord) (rec : KeyRecord)
    (hrecs : get_matching_key_records st now f so = .ok recs) (hmem : rec ∈ recs) :
    (rec.expired = true ↔ ∃ d, rec.expiration_date = some d ∧ d < now) ∧
    (rec.usable = true ↔ (rec.active = true ∧ rec.expired = false)) := by
  obtain ⟨recs0, hd, hlen, hiff⟩ := get_matching_inv st now f so recs hrecs
  obtain ⟨r, hr, hrok⟩ := record_dicts_mem st.masterKey now hd ((hiff rec).mp hmem)
  obtain ⟨-, -, -, -, -, -, -, -, -, hexp, husable, -⟩ :=
    get_dict_fields st.masterKey now r rec hrok
  constructor
  · rw [hexp]
    cases hdate : rec.expiration_date with
    | none => simp [expiredOf, hdate]
    | some d => simp [expiredOf, hdate]
  · rw [husable]
    simp [Bool.and_eq_true, Bool.not_eq_true']

/-- A store holding one active record whose expiration lies in the past
relative to `now = 0`. -/
def exSt4 : Keystore :=
  ⟨[⟨1, "n", some (-5), true, none, none, none, some ⟨0, 3, "k"⟩⟩], 2, 3⟩

/-- The record `exSt4`'s read returns. -/
def exRec4 : KeyRecord :=
  ⟨1, "n", some (-5), true, none, none, none, some ⟨0, 3, "k"⟩, some (-5), true, false, some "k"⟩

/-- Witness for C4: a past-expiration active record reports
`expired = true` and `usable = false`. -/
theorem read_record_expired_usable_witness :
    (exRec4.expired = true ↔ ∃ d, exRec4.expiration_date = some d ∧ d < 0) ∧
    (exRec4.usable = true ↔ (exRec4.active = true ∧ exRec4.expired = false)) :=
  read_record_expired_usable exSt4 0 emptyFilters none [exRec4] exRec4 rfl
    (List.mem_singleton.mpr rfl)

/-! C7. `get_key_by_name` raises unless exactly one record has the
name, in which case it returns that record's decrypted key. -/

/-- C7: `get_key_by_name n` errors when the number of stored records
named `n` differs from 1, and returns the decrypted key of the unique
match otherwise. -/
theorem get_key_by_name_spec (st : Keystore) (now : Int) (n : String)
    (recs : List KeyRecord)
    (h : get_matching_key_records st now { name := some n } none = .ok recs) :
    recs.length = (st.rows.filter (fun r => decide (r.name = n))).length ∧
    (recs.length ≠ 1 → get_key_by_name st now n = .error "AmbiguityError") ∧
    (∀ r, recs = [r] → get_key_by_name st now n = .ok r.key) := by
  have hkey : get_key_by_name st now n =
      (match (.ok recs : Except String (List KeyRecord)) with
       | .error e => .error e
       | .ok [r] => .ok r.key
       | .ok _ => .error "AmbiguityError") := by
    simp only [get_key_by_name, h]
  obtain ⟨recs0, hd, hlen, hiff⟩ :=
    get_matching_inv st now { name := some n } none recs h
  refine ⟨?_, ?_, ?_⟩
  · rw [hlen, record_dicts_ok_length st.masterKey now hd]
    congr 1
    apply List.filter_congr
    intro r hr
    simp [rowMatchesFilters]
  · intro hne
    rw [hkey]
    cases recs with
    | nil => rfl
    | cons r rest =>
      cases rest with
      | nil => simp at hne
      | cons r2 rest2 => rfl
  · intro r hr
    subst hr
    rw [hkey]

/-- A store holding exactly one record named `svc`. -/
def exSt7 : Keystore :=
  ⟨[⟨1, "svc", some 0, true, none, none, none, some ⟨0, 3, "sekret123"⟩⟩], 2, 3⟩

/-- The record `exSt7`'s read returns. -/
def exRec7 : KeyRecord :=
  ⟨1, "svc", some 0, true, none, none, none, some ⟨0, 3, "sekret123"⟩, none, false, true,
    some "sekret123"⟩

/-- Witness for C7: the unique `svc` record's key is returned. -/
theorem get_key_by_name_spec_witness :
    [exRec7].length = (exSt7.rows.filter (fun r => decide (r.name = "svc"))).length ∧
    get_key_by_name exSt7 0 "svc" = .ok (some "sekret123") :=
  ⟨(get_key_by_name_spec exSt7 0 "svc" [exRec7] rfl).1,
   (get_key_by_name_spec exSt7 0 "svc" [exRec7] rfl).2.2 exRec7 rfl⟩

/-! C8. `update_key` never touches `id` or `encrypted_key`, and fields
not supplied keep their previous values; rows other than the target are
untouched entirely. -/

/-- Forall₂ between a list and its image under a map. -/
theorem forall2_map_self (P : α → β → Prop) (g : α → β) :
    ∀ (l : List α), (∀ x ∈ l, P x (g x)) → List.Forall₂ P l (l.map g) := by
  intro l
  induction l with
  | nil => intro h; exact List.Forall₂.nil
  | cons x t ih =>
    intro h
    exact List.Forall₂.cons (h x (List.mem_cons_self x t))
      (ih (fun y hy => h y (List.mem_cons_of_mem x hy)))

/-- C8: after any successful `update_key` call, every row keeps its `id`
and its `encrypted_key`, every field not supplied in the call keeps its
previous value, and rows whose id is not the target are unchanged
entirely. -/
theorem update_key_frame (st : Keystore) (i : Nat) (name : Option String)
    (active : Option Bool) (expiration_in_sse : Option Int)
    (batch source login : Option String) (st' : Keystore)
    (h : update_key st i name active expiration_in_sse batch source login = .ok st') :
    List.Forall₂ (fun old new =>
      new.id = old.id ∧ new.encrypted_key = old.encrypted_key ∧
      (name = none → new.name = old.name) ∧
      (active = none → new.active = old.active) ∧
      (expiration_in_sse = none → new.expiration_in_sse = old.expiration_in_sse) ∧
      (batch = none → new.batch = old.batch) ∧
      (source = none → new.source = old.source) ∧
      (login = none → new.login = old.login) ∧
      (old.id ≠ i → new = old)) st.rows st'.rows := by
  simp only [update_key] at h
  by_cases hall : (name.isNone && active.isNone && expiration_in_sse.isNone &&
      batch.isNone && source.isNone && login.isNone) = true
  · rw [if_pos hall] at h
    cases h
    refine List.forall₂_same.mpr ?_
    intro x hx
    exact ⟨rfl, rfl, fun _ => rfl, fun _ => rfl, fun _ => rfl, fun _ => rfl,
      fun _ => rfl, fun _ => rfl, fun _ => rfl⟩
  · rw [if_neg hall] at h
    by_cases hcnt : st.rows.countP (fun r => decide (r.id = i)) ≠ 1
    · rw [if_pos hcnt] at h; cases h
    · rw [if_neg hcnt] at h
      cases h
      apply forall2_map_self
      intro x hx
      dsimp only
      by_cases hid : x.id = i
      · rw [if_pos hid]
        refine ⟨rfl, rfl, ?_, ?_, ?_, ?_, ?_, ?_, ?_⟩
        · intro hn; subst hn; rfl
        · intro hn; subst hn; rfl
        · intro hn; subst hn; rfl
        · intro hn; subst hn; rfl
        · intro hn; subst hn; rfl
        · intro hn; subst hn; rfl
        · intro hne; exact absurd hid hne
      · rw [if_neg hid]
        exact ⟨rfl, rfl, fun _ => rfl, fun _ => rfl, fun _ => rfl, fun _ => rfl,
          fun _ => rfl, fun _ => rfl, fun _ => rfl⟩

/-- A one-row store for the update witness. -/
def exRow8 : KeyRow := ⟨1, "n", some 0, true, some "b", none, none, some ⟨0, 5, "k"⟩⟩

/-- `exRow8` after `update_key` renames it to `n2`. -/
def exRow8' : KeyRow := ⟨1, "n2", some 0, true, some "b", none, none, some ⟨0, 5, "k"⟩⟩

/-- Witness for C8: updating only the name of the single row keeps its
id, ciphertext and all unsupplied fields. -/
theorem update_key_frame_witness :
    List.Forall₂ (fun old new =>
      new.id = old.id ∧ new.encrypted_key = old.encrypted_key ∧
      ((some "n2" : Option String) = none → new.name = old.name) ∧
      ((none : Option Bool) = none → new.active = old.active) ∧
      ((none : Option Int) = none → new.expiration_in_sse = old.expiration_in_sse) ∧
      ((none : Option String) = none → new.batch = old.batch) ∧
      ((none : Option String) = none → new.source = old.source) ∧
      ((none : Option String) = none → new.login = old.login) ∧
      (old.id ≠ 1 → new = old)) [exRow8] [exRow8'] :=
  update_key_frame ⟨[exRow8], 2, 5⟩ 1 (some "n2") none none none none none
    ⟨[exRow8'], 2, 5⟩ rfl

/-! C9. A row that fails to decrypt is fatal to every bulk scan that
decrypts it: the scan raises rather than skipping the row.  (A scan
whose filter excludes the bad row never decrypts it; the hypotheses
below say the bad row is among the rows the scan decrypts, which for
`get_key_record` is every row of the table.) -/

/-- C9: with a stored row whose token was made under a different master
key, `get_key_record` fails for every plaintext, and
`get_matching_key_records` and both usability reports fail whenever the
bad row matches their filters, each with the decrypt error — never
skipping the row. -/
theorem bulk_scan_decrypt_failure (st : Keystore) (now : Int) (bad : KeyRow)
    (c : Ciphertext) (hmem : bad ∈ st.rows) (hc : bad.encrypted_key = some c)
    (hk : c.masterKey ≠ st.masterKey) :
    (∀ p, get_key_record st now p = .error "DecryptionError") ∧
    (∀ f so, rowMatchesFilters f bad = true →
      get_matching_key_records st now f so = .error "DecryptionError") ∧
    (∀ kn, rowMatchesFilters { name := kn } bad = true →
      records_for_usability_report st now kn = .error "DecryptionError" ∧
      usability_counts_report st now kn = .error "DecryptionError") := by
  have hbad : ∀ rec, get_dict_from_record_tuple st.masterKey now bad ≠ .ok rec := by
    intro rec hok
    obtain ⟨-, -, -, -, -, -, -, -, -, -, -, hdec⟩ :=
      get_dict_fields st.masterKey now bad rec hok
    rw [hc] at hdec
    simp only [decrypt_key] at hdec
    rw [if_neg hk] at hdec
    cases hdec
  refine ⟨?_, ?_, ?_⟩
  · intro p
    simp only [get_key_record]
    rw [record_dicts_error_of_bad st.masterKey now bad hbad hmem]
  · intro f so hmatch
    simp only [get_matching_key_records]
    rw [record_dicts_error_of_bad st.masterKey now bad hbad
      (List.mem_filter.mpr ⟨hmem, hmatch⟩)]
  · intro kn hmatch
    constructor
    · simp only [records_for_usability_report, get_matching_key_records]
      rw [record_dicts_error_of_bad st.masterKey now bad hbad
        (List.mem_filter.mpr ⟨hmem, hmatch⟩)]
    · simp only [usability_counts_report, records_for_usability_report,
        get_matching_key_records]
      rw [record_dicts_error_of_bad st.masterKey now bad hbad
        (List.mem_filter.mpr ⟨hmem, hmatch⟩)]

/-- A row whose token was produced under master key 1, stored in a store
whose master key is 0. -/
def exBad9 : KeyRow := ⟨2, "b", some 0, true, none, none, none, some ⟨0, 1, "x"⟩⟩

/-- A two-row store containing `exBad9` and one good row. -/
def exSt9 : Keystore :=
  ⟨[⟨1, "g", some 0, true, none, none, none, none⟩, exBad9], 3, 0⟩

/-- Witness for C9: all four scans fail on `exSt9`. -/
theorem bulk_scan_decrypt_failure_witness :
    get_key_record exSt9 0 "x" = .error "DecryptionError" ∧
    get_matching_key_records exSt9 0 emptyFilters none = .error "DecryptionError" ∧
    records_for_usability_report exSt9 0 none = .error "DecryptionError" ∧
    usability_counts_report exSt9 0 none = .error "DecryptionError" := by
  obtain ⟨h1, h2, h3⟩ := bulk_scan_decrypt_failure exSt9 0 exBad9 ⟨0, 1, "x"⟩
    (by simp [exSt9]) rfl (by decide)
  exact ⟨h1 "x", h2 emptyFilters none (by decide), (h3 none (by decide)).1,
    (h3 none (by decide)).2⟩

/-! C5 development: a closed characterization of the counting loop, the
spec-side grouping by exact string tuples, and their comparison. -/

/-- The qualifying key of a record as the exact string tuple
`(str(name), str(source), str(login), str(batch))` the claim speaks of. -/
def qualTuple (rec : KeyRecord) : String × String × String × String :=
  (rec.name, pyStr rec.source, pyStr rec.login, pyStr rec.batch)

/-- The join of a qualifying tuple with the source delimiter. -/
def joinQual (t : String × String × String × String) : String :=
  t.1 ++ "+|+" ++ t.2.1 ++ "+|+" ++ t.2.2.1 ++ "+|+" ++ t.2.2.2

/-- The qualified name is the join of the qualifying tuple. -/
theorem qualifiedName_eq_joinQual (r : KeyRecord) :
    qualifiedName r = joinQual (qualTuple r) := rfl

/-- First-appearance deduplication of a list — the key order in which a
Python dict filled by a left-to-right loop iterates. -/
def firstAppearances [DecidableEq α] (l : List α) : List α :=
  l.foldl (fun acc x => if x ∈ acc then acc else acc ++ [x]) []

/-- Spec-side counts report, from the claim text: one entry per distinct
qualifying tuple, in first-appearance order over the given (sorted)
report sequence, counting the group's usable and unusable members. -/
def countsSpec (rs : List KeyRecord) : List CountRecord :=
  (firstAppearances (rs.map qualTuple)).map (fun t =>
    { name := t.1, source := t.2.1, login := t.2.2.1, batch := t.2.2.2,
      usable := rs.countP (fun r => decide (qualTuple r = t) && r.usable),
      unusable := rs.countP (fun r => decide (qualTuple r = t) && !r.usable) })

/-- Membership through the dedup fold, for any accumulator. -/
theorem mem_foldl_dedup [DecidableEq α] :
    ∀ (l acc : List α) (x : α),
      (x ∈ l.foldl (fun a y => if y ∈ a then a else a ++ [y]) acc ↔ x ∈ acc ∨ x ∈ l) := by
  intro l
  induction l with
  | nil => intro acc x; simp
  | cons z zs ih =>
    intro acc x
    rw [List.foldl_cons, ih]
    by_cases hz : z ∈ acc
    · rw [if_pos hz]
      simp only [List.mem_cons]
      constructor
      · rintro (h | h) <;> tauto
      · rintro (h | h | h)
        · tauto
        · left; rw [h]; exact hz
        · tauto
    · rw [if_neg hz]
      simp only [List.mem_append, List.mem_singleton, List.mem_cons]
      tauto

/-- `firstAppearances` keeps exactly the members. -/
theorem mem_firstAppearances [DecidableEq α] (l : List α) (x : α) :
    x ∈ firstAppearances l ↔ x ∈ l := by
  unfold firstAppearances
  rw [mem_foldl_dedup]
  simp

/-- `firstAppearances` over one appended element. -/
theorem firstAppearances_concat [DecidableEq α] (l : List α) (x : α) :
    firstAppearances (l ++ [x]) =
      if x ∈ firstAppearances l then firstAppearances l else firstAppearances l ++ [x] := by
  unfold firstAppearances
  rw [List.foldl_append]
  rfl

/-- An association list pairing every key with a value computed from
it — the shape both counting dicts keep throughout the loop. -/
def mapKeys (keys : List String) (g : String → Nat) : List (String × Nat) :=
  keys.map (fun k => (k, g k))

/-- `mapKeys` only depends on the value function on the keys present. -/
theorem mapKeys_congr (keys : List String) (g1 g2 : String → Nat)
    (h : ∀ k ∈ keys, g1 k = g2 k) : mapKeys keys g1 = mapKeys keys g2 := by
  unfold mapKeys
  apply List.map_congr_left
  intro k hk
  rw [h k hk]

/-- Key membership in a `mapKeys` dict. -/
theorem dictContains_mapKeys (keys : List String) (g : String → Nat) (k : String) :
    dictContains (mapKeys keys g) k = true ↔ k ∈ keys := by
  unfold dictContains mapKeys
  rw [List.any_eq_true]
  constructor
  · rintro ⟨p, hp, hdec⟩
    obtain ⟨k', hk', hk'e⟩ := List.mem_map.mp hp
    rw [← hk'e] at hdec
    simp only [decide_eq_true_eq] at hdec
    exact hdec ▸ hk'
  · intro hk
    exact ⟨(k, g k), List.mem_map_of_mem _ hk, by simp⟩

/-- `setdefault 0` on a `mapKeys` dict. -/
theorem dictSetDefault0_mapKeys (keys : List String) (g : String → Nat) (k : String) :
    dictSetDefault0 (mapKeys keys g) k =
      if k ∈ keys then mapKeys keys g else mapKeys keys g ++ [(k, 0)] := by
  unfold dictSetDefault0
  by_cases hk : k ∈ keys
  · rw [if_pos ((dictContains_mapKeys keys g k).mpr hk), if_pos hk]
  · rw [if_neg (fun hc => hk ((dictContains_mapKeys keys g k).mp hc)), if_neg hk]

/-- Increment on a `mapKeys` dict. -/
theorem dictIncr_mapKeys (keys : List String) (g : String → Nat) (k : String) :
    dictIncr (mapKeys keys g) k =
      mapKeys keys (fun k' => if k' = k then g k' + 1 else g k') := by
  unfold dictIncr mapKeys
  rw [List.map_map]
  apply List.map_congr_left
  intro k' hk'
  by_cases h : k' = k
  · simp [h]
  · simp [h]

/-- Lookup on a `mapKeys` dict whose key is present. -/
theorem dictGet_mapKeys (g : String → Nat) (k : String) :
    ∀ (keys : List String), k ∈ keys → dictGet (mapKeys keys g) k = g k := by
  intro keys
  induction keys with
  | nil => intro h; cases h
  | cons k0 ks ih =>
    intro hk
    simp only [mapKeys, List.map_cons]
    by_cases h : k0 = k
    · unfold dictGet
      rw [List.find?_cons_of_pos _ (by simp [h])]
      simp [h]
    · unfold dictGet
      rw [List.find?_cons_of_neg _ (by simp [h])]
      have hks : k ∈ ks := by
        rcases List.mem_cons.mp hk with h' | h'
        · exact absurd h'.symm h
        · exact h'
      have hrec := ih hks
      simpa [dictGet, mapKeys] using hrec

/-- The qualified names of a record list in first-appearance order: the
key sequence of both counting dicts after the loop. -/
def qnKeys (rs : List KeyRecord) : List String := firstAppearances (rs.map qualifiedName)

/-- Number of usable records of a list whose qualified name is `k`. -/
def usableCountAt (rs : List KeyRecord) (k : String) : Nat :=
  rs.countP (fun r => decide (qualifiedName r = k) && r.usable)

/-- Number of unusable records of a list whose qualified name is `k`. -/
def unusableCountAt (rs : List KeyRecord) (k : String) : Nat :=
  rs.countP (fun r => decide (qualifiedName r = k) && !r.usable)

/-- The usable-counts dict after the loop over `rs`. -/
def usMap (rs : List KeyRecord) : List (String × Nat) :=
  mapKeys (qnKeys rs) (usableCountAt rs)

/-- The unusable-counts dict after the loop over `rs`. -/
def unMap (rs : List KeyRecord) : List (String × Nat) :=
  mapKeys (qnKeys rs) (unusableCountAt rs)

/-- Keys after one more record. -/
theorem qnKeys_concat (p : List KeyRecord) (r : KeyRecord) :
    qnKeys (p ++ [r]) =
      if qualifiedName r ∈ qnKeys p then qnKeys p else qnKeys p ++ [qualifiedName r] := by
  unfold qnKeys
  rw [List.map_append]
  exact firstAppearances_concat _ _

/-- Usable count after one more record. -/
theorem usableCountAt_concat (p : List KeyRecord) (r : KeyRecord) (k : String) :
    usableCountAt (p ++ [r]) k =
      usableCountAt p k +
        (if (decide (qualifiedName r = k) && r.usable) = true then 1 else 0) := by
  unfold usableCountAt
  rw [List.countP_append]
  simp [List.countP_cons]

/-- Unusable count after one more record. -/
theorem unusableCountAt_concat (p : List KeyRecord) (r : KeyRecord) (k : String) :
    unusableCountAt (p ++ [r]) k =
      unusableCountAt p k +
        (if (decide (qualifiedName r = k) && !r.usable) = true then 1 else 0) := by
  unfold unusableCountAt
  rw [List.countP_append]
  simp [List.countP_cons]

/-- A qualified name not among a list's names counts zero usables. -/
theorem usableCountAt_eq_zero (p : List KeyRecord) (k : String)
    (h : k ∉ p.map qualifiedName) : usableCountAt p k = 0 := by
  unfold usableCountAt
  rw [List.countP_eq_zero]
  intro r hr hcontra
  rw [Bool.and_eq_true, decide_eq_true_eq] at hcontra
  exact h (hcontra.1 ▸ List.mem_map_of_mem qualifiedName hr)

/-- A qualified name not among a list's names counts zero unusables. -/
theorem unusableCountAt_eq_zero (p : List KeyRecord) (k : String)
    (h : k ∉ p.map qualifiedName) : unusableCountAt p k = 0 := by
  unfold unusableCountAt
  rw [List.countP_eq_zero]
  intro r hr hcontra
  rw [Bool.and_eq_true, decide_eq_true_eq] at hcontra
  exact h (hcontra.1 ▸ List.mem_map_of_mem qualifiedName hr)

/-- One loop iteration keeps both dicts in `mapKeys` shape with the
first-appearance keys and per-key counts of the processed prefix. -/
theorem countsStep_spec (p : List KeyRecord) (r : KeyRecord) :
    countsStep (usMap p, unMap p) r = (usMap (p ++ [r]), unMap (p ++ [r])) := by
  simp only [countsStep]
  by_cases hin : qualifiedName r ∈ qnKeys p
  · have hks : qnKeys (p ++ [r]) = qnKeys p := by rw [qnKeys_concat, if_pos hin]
    have hus : dictSetDefault0 (usMap p) (qualifiedName r) = usMap p := by
      unfold usMap; rw [dictSetDefault0_mapKeys, if_pos hin]
    have hun : dictSetDefault0 (unMap p) (qualifiedName r) = unMap p := by
      unfold unMap; rw [dictSetDefault0_mapKeys, if_pos hin]
    rw [hus, hun]
    cases husable : r.usable with
    | true =>
      simp only [if_true]
      rw [Prod.mk.injEq]
      constructor
      · unfold usMap
        rw [dictIncr_mapKeys, hks]
        apply mapKeys_congr
        intro k hk
        rw [usableCountAt_concat]
        by_cases hkq : k = qualifiedName r
        · simp [hkq, husable]
        · have hne : ¬(qualifiedName r = k) := fun hh => hkq hh.symm
          simp [hkq, hne]
      · unfold unMap
        rw [hks]
        apply mapKeys_congr
        intro k hk
        rw [unusableCountAt_concat]
        simp [husable]
    | false =>
      simp only [Bool.false_eq_true, if_false]
      rw [Prod.mk.injEq]
      constructor
      · unfold usMap
        rw [hks]
        apply mapKeys_congr
        intro k hk
        rw [usableCountAt_concat]
        simp [husable]
      · unfold unMap
        rw [dictIncr_mapKeys, hks]
        apply mapKeys_congr
        intro k hk
        rw [unusableCountAt_concat]
        by_cases hkq : k = qualifiedName r
        · simp [hkq, husable]
        · have hne : ¬(qualifiedName r = k) := fun hh => hkq hh.symm
          simp [hkq, hne]
  · have hmem : qualifiedName r ∉ p.map qualifiedName :=
      fun hc => hin ((mem_firstAppearances _ _).mpr hc)
    have hks : qnKeys (p ++ [r]) = qnKeys p ++ [qualifiedName r] := by
      rw [qnKeys_concat, if_neg hin]
    have hus : dictSetDefault0 (usMap p) (qualifiedName r) =
        mapKeys (qnKeys p ++ [qualifiedName r]) (usableCountAt p) := by
      unfold usMap
      rw [dictSetDefault0_mapKeys, if_neg hin]
      unfold mapKeys
      rw [List.map_append]
      simp [usableCountAt_eq_zero p (qualifiedName r) hmem]
    have hun : dictSetDefault0 (unMap p) (qualifiedName r) =
        mapKeys (qnKeys p ++ [qualifiedName r]) (unusableCountAt p) := by
      unfold unMap
      rw [dictSetDefault0_mapKeys, if_neg hin]
      unfold mapKeys
      rw [List.map_append]
      simp [unusableCountAt_eq_zero p (qualifiedName r) hmem]
    rw [hus, hun]
    cases husable : r.usable with
    | true =>
      simp only [if_true]
      rw [Prod.mk.injEq]
      constructor
      · unfold usMap
        rw [dictIncr_mapKeys, hks]
        apply mapKeys_congr
        intro k hk
        rw [usableCountAt_concat]
        by_cases hkq : k = qualifiedName r
        · simp [hkq, husable, usableCountAt_eq_zero p (qualifiedName r) hmem]
        · have hne : ¬(qualifiedName r = k) := fun hh => hkq hh.symm
          simp [hkq, hne]
      · unfold unMap
        rw [hks]
        apply mapKeys_congr
        intro k hk
        rw [unusableCountAt_concat]
        simp [husable]
    | false =>
      simp only [Bool.false_eq_true, if_false]
      rw [Prod.mk.injEq]
      constructor
      · unfold usMap
        rw [hks]
        apply mapKeys_congr
        intro k hk
        rw [usableCountAt_concat]
        simp [husable]
      · unfold unMap
        rw [dictIncr_mapKeys, hks]
        apply mapKeys_congr
        intro k hk
        rw [unusableCountAt_concat]
        by_cases hkq : k = qualifiedName r
        · simp [hkq, husable, unusableCountAt_eq_zero p (qualifiedName r) hmem]
        · have hne : ¬(qualifiedName r = k) := fun hh => hkq hh.symm
          simp [hkq, hne]

/-- The whole counting loop, relative to an already processed prefix. -/
theorem counts_foldl :
    ∀ (l p : List KeyRecord),
      l.foldl countsStep (usMap p, unMap p) = (usMap (p ++ l), unMap (p ++ l)) := by
  intro l
  induction l with
  | nil => intro p; simp
  | cons r t ih =>
    intro p
    rw [List.foldl_cons, countsStep_spec p r, ih (p ++ [r])]
    simp

/-- Closed characterization of the counting body: one display record per
first-appearing qualified name, holding that group's usable and unusable
counts, the four fields recovered by splitting the name. -/
theorem usability_counts_of_eq (rs : List KeyRecord) :
    usability_counts_of rs = (qnKeys rs).map (fun k =>
      { name := (pySplitQual k).getD 0 "", source := (pySplitQual k).getD 1 "",
        login := (pySplitQual k).getD 2 "", batch := (pySplitQual k).getD 3 "",
        usable := usableCountAt rs k, unusable := unusableCountAt rs k }) := by
  unfold usability_counts_of
  have h0 : rs.foldl countsStep ([], []) = (usMap rs, unMap rs) := by
    have := counts_foldl rs []
    simpa using this
  rw [h0]
  unfold countsDisplay
  show (usMap rs).map _ = _
  unfold usMap
  unfold mapKeys
  rw [List.map_map]
  apply List.map_congr_left
  intro k hk
  have hget : dictGet (unMap rs) k = unusableCountAt rs k := by
    unfold unMap
    exact dictGet_mapKeys (unusableCountAt rs) k (qnKeys rs) hk
  simp only [Function.comp]
  rw [hget]

/-- The dedup fold commutes with an injective map, for any pair of
accumulators related by that map. -/
theorem foldl_dedup_map [DecidableEq α] [DecidableEq β] (f : α → β) :
    ∀ (l acc : List α),
      (∀ a, (a ∈ acc ∨ a ∈ l) → ∀ b, (b ∈ acc ∨ b ∈ l) → f a = f b → a = b) →
      (l.map f).foldl (fun ac y => if y ∈ ac then ac else ac ++ [y]) (acc.map f) =
        (l.foldl (fun ac y => if y ∈ ac then ac else ac ++ [y]) acc).map f := by
  intro l
  induction l with
  | nil => intro acc hinj; rfl
  | cons x t ih =>
    intro acc hinj
    rw [List.map_cons, List.foldl_cons, List.foldl_cons]
    have hmem : f x ∈ acc.map f ↔ x ∈ acc := by
      constructor
      · intro hm
        obtain ⟨a, ha, hfa⟩ := List.mem_map.mp hm
        have := hinj a (Or.inl ha) x (Or.inr (List.mem_cons_self x t)) hfa
        rw [← this]
        exact ha
      · intro hm
        exact List.mem_map_of_mem f hm
    by_cases hx : x ∈ acc
    · rw [if_pos (hmem.mpr hx), if_pos hx]
      apply ih
      intro a ha b hb
      refine hinj a ?_ b ?_
      · rcases ha with h | h
        · exact Or.inl h
        · exact Or.inr (List.mem_cons_of_mem x h)
      · rcases hb with h | h
        · exact Or.inl h
        · exact Or.inr (List.mem_cons_of_mem x h)
    · rw [if_neg (fun hc => hx (hmem.mp hc)), if_neg hx]
      have happ : acc.map f ++ [f x] = (acc ++ [x]).map f := by simp
      rw [happ]
      apply ih
      intro a ha b hb
      refine hinj a ?_ b ?_
      · rcases ha with h | h
        · rcases List.mem_append.mp h with h' | h'
          · exact Or.inl h'
          · exact Or.inr (List.mem_cons.mpr (Or.inl (List.mem_singleton.mp h')))
        · exact Or.inr (List.mem_cons_of_mem x h)
      · rcases hb with h | h
        · rcases List.mem_append.mp h with h' | h'
          · exact Or.inl h'
          · exact Or.inr (List.mem_cons.mpr (Or.inl (List.mem_singleton.mp h')))
        · exact Or.inr (List.mem_cons_of_mem x h)

/-- `firstAppearances` commutes with a map injective on the list. -/
theorem firstAppearances_map [DecidableEq α] [DecidableEq β] (f : α → β) (l : List α)
    (hinj : ∀ a ∈ l, ∀ b ∈ l, f a = f b → a = b) :
    firstAppearances (l.map f) = (firstAppearances l).map f := by
  unfold firstAppearances
  have h := foldl_dedup_map f l [] ?_
  · simpa using h
  · intro a ha b hb hf
    rcases ha with h' | h'
    · exact absurd h' (List.not_mem_nil a)
    · rcases hb with h'' | h''
      · exact absurd h'' (List.not_mem_nil b)
      · exact hinj a h' b h'' hf

/-- C5 amended: on any successful usability report whose rendered
qualifying fields keep the joined key faithful to the tuple (no field
rendering contains the delimiter `+|+`, expressed as: the join determines
the tuple, and splitting the join recovers the four fields),
`usability_counts_report` returns exactly one entry per distinct
qualifying tuple, in first-appearance order over the sorted report
sequence, whose `usable`/`unusable` counts are the numbers of usable and
unusable member records of that group. -/
theorem usability_counts_report_spec (st : Keystore) (now : Int) (key_name : Option String)
    (rs : List KeyRecord)
    (hrep : records_for_usability_report st now key_name = .ok rs)
    (hinj : ∀ r1 ∈ rs, ∀ r2 ∈ rs,
      qualifiedName r1 = qualifiedName r2 → qualTuple r1 = qualTuple r2)
    (hsplit : ∀ r ∈ rs, pySplitQual (qualifiedName r) =
      [r.name, pyStr r.source, pyStr r.login, pyStr r.batch]) :
    usability_counts_report st now key_name = .ok (countsSpec rs) := by
  have hrw : usability_counts_report st now key_name = .ok (usability_counts_of rs) := by
    simp only [usability_counts_report, hrep]
  rw [hrw]
  congr 1
  rw [usability_counts_of_eq]
  unfold countsSpec
  have hinj' : ∀ a ∈ rs.map qualTuple, ∀ b ∈ rs.map qualTuple,
      joinQual a = joinQual b → a = b := by
    intro a ha b hb hab
    obtain ⟨r1, hr1, hr1e⟩ := List.mem_map.mp ha
    obtain ⟨r2, hr2, hr2e⟩ := List.mem_map.mp hb
    subst hr1e
    subst hr2e
    exact hinj r1 hr1 r2 hr2 hab
  have hkeys : qnKeys rs = (firstAppearances (rs.map qualTuple)).map joinQual := by
    unfold qnKeys
    have hqmap : rs.map qualifiedName = (rs.map qualTuple).map joinQual := by
      rw [List.map_map]
      rfl
    rw [hqmap]
    exact firstAppearances_map joinQual (rs.map qualTuple) hinj'
  rw [hkeys, List.map_map]
  apply List.map_congr_left
  intro t ht
  have ht' : t ∈ rs.map qualTuple := (mem_firstAppearances _ _).mp ht
  obtain ⟨r0, hr0, hr0e⟩ := List.mem_map.mp ht'
  subst hr0e
  have hs : pySplitQual (joinQual (qualTuple r0)) =
      [r0.name, pyStr r0.source, pyStr r0.login, pyStr r0.batch] := hsplit r0 hr0
  have hcu : usableCountAt rs (joinQual (qualTuple r0)) =
      rs.countP (fun r => decide (qualTuple r = qualTuple r0) && r.usable) := by
    unfold usableCountAt
    apply List.countP_congr
    intro r' hr'
    rw [Bool.and_eq_true, Bool.and_eq_true, decide_eq_true_eq, decide_eq_true_eq]
    constructor
    · intro hb
      exact ⟨hinj r' hr' r0 hr0 hb.1, hb.2⟩
    · intro hb
      refine ⟨?_, hb.2⟩
      show qualifiedName r' = joinQual (qualTuple r0)
      rw [qualifiedName_eq_joinQual, hb.1]
  have hcn : unusableCountAt rs (joinQual (qualTuple r0)) =
      rs.countP (fun r => decide (qualTuple r = qualTuple r0) && !r.usable) := by
    unfold unusableCountAt
    apply List.countP_congr
    intro r' hr'
    rw [Bool.and_eq_true, Bool.and_eq_true, decide_eq_true_eq, decide_eq_true_eq]
    constructor
    · intro hb
      exact ⟨hinj r' hr' r0 hr0 hb.1, hb.2⟩
    · intro hb
      refine ⟨?_, hb.2⟩
      show qualifiedName r' = joinQual (qualTuple r0)
      rw [qualifiedName_eq_joinQual, hb.1]
  simp only [Function.comp]
  rw [hs, hcu, hcn]
  rfl

/-- A row whose name itself contains the delimiter `+|+`. -/
def exD1 : KeyRow := ⟨1, "a+|+b", some 0, true, none, some "c", none, some ⟨1, 5, "k1"⟩⟩

/-- A row with a different qualifying tuple whose joined key collides
with `exD1`'s. -/
def exD2 : KeyRow := ⟨2, "a", some 0, true, none, some "b+|+c", none, some ⟨2, 5, "k2"⟩⟩

/-- The two-row store built from `exD1` and `exD2`. -/
def exStD : Keystore := ⟨[exD1, exD2], 3, 5⟩

/-- `exD1` annotated at `now = 0`. -/
def exRecD1 : KeyRecord :=
  ⟨1, "a+|+b", some 0, true, none, some "c", none, some ⟨1, 5, "k1"⟩, none, false, true,
    some "k1"⟩

/-- `exD2` annotated at `now = 0`. -/
def exRecD2 : KeyRecord :=
  ⟨2, "a", some 0, true, none, some "b+|+c", none, some ⟨2, 5, "k2"⟩, none, false, true,
    some "k2"⟩

/-- C5 counterexample: the usability report holds two records with
distinct qualifying tuples (`("a+|+b","c","None","None")` versus
`("a","b+|+c","None","None")`), yet `usability_counts_report` merges them
into a single entry (with misattributed fields), because it groups by the
delimiter-joined string, which collides for these tuples — refuting `one
entry per distinct group`. -/
theorem usability_counts_collapse_cex :
    records_for_usability_report exStD 0 none = .ok [exRecD2, exRecD1] ∧
    qualTuple exRecD2 ≠ qualTuple exRecD1 ∧
    usability_counts_report exStD 0 none =
      .ok [{ name := "a", source := "b", login := "c", batch := "None",
             usable := 2, unusable := 0 }] :=
  ⟨rfl, by decide, rfl⟩

/-- One active and one inactive record of a single qualifying group,
with delimiter-free fields. -/
def exStW : Keystore :=
  ⟨[⟨1, "svc", some 0, true, some "b1", some "src", some "lg", some ⟨1, 5, "k1"⟩⟩,
    ⟨2, "svc", some 0, false, some "b1", some "src", some "lg", some ⟨2, 5, "k2"⟩⟩], 3, 5⟩

/-- The sorted usability report of `exStW` at `now = 0` (the inactive
record sorts first on the `active` component). -/
def exRecW1 : KeyRecord :=
  ⟨2, "svc", some 0, false, some "b1", some "src", some "lg", some ⟨2, 5, "k2"⟩, none,
    false, false, some "k2"⟩

/-- The second (active) record of `exStW`'s report. -/
def exRecW2 : KeyRecord :=
  ⟨1, "svc", some 0, true, some "b1", some "src", some "lg", some ⟨1, 5, "k1"⟩, none,
    false, true, some "k1"⟩

/-- Witness for C5: a delimiter-free store where the counts report
equals the spec-side grouping. -/
theorem usability_counts_report_spec_witness :
    usability_counts_report exStW 0 none = .ok (countsSpec [exRecW1, exRecW2]) :=
  usability_counts_report_spec exStW 0 none [exRecW1, exRecW2] rfl (by decide) (by decide)

end SKS
